import Mathlib

/-!
Verification of the `chan_downloader` library (src/lib.rs) against its
specification.  The Rust functions are shallowly embedded over `List Char`
(a faithful model of Rust's `str` for the ASCII inputs of interest):

* `get_thread_infos` — splits a URL on `/`, indexes segments 3 and 5;
  an out-of-bounds index in Rust panics, modelled by `ThreadInfos.panicked`.
* `get_image_links` — scans the page with the fixed regex
  `(//i(?:s)?\d*\.(?:4cdn|4chan)\.org/\w+/(\d+\.(?:jpg|png|gif|webm)))`;
  the pattern is deterministic (no alternation/backtracking ambiguity), so
  it is embedded as a direct matcher (`matchAt`) plus the left-to-right
  non-overlapping scan of `captures_iter` (`capturesAux`).  The regex
  classes `\d` and `\w` are modelled as their ASCII parts.
* `save_image` — the HTTP response and the result of `File::create` are
  inputs (environment oracles); the file system is an association list.
-/

/-- Rust's `str::split(sep)`: n separators yield n+1 pieces; the empty
string yields `[[]]`. -/
def splitOnChar (sep : Char) : List Char → List (List Char)
  | [] => [[]]
  | c :: rest =>
    if c = sep then [] :: splitOnChar sep rest
    else
      match splitOnChar sep rest with
      | [] => [[c]]
      | h :: t => (c :: h) :: t

/-- Outcome of `get_thread_infos`: Rust returns a pair `(&str, &str)` and
panics on out-of-bounds indexing; there is no error channel. -/
inductive ThreadInfos where
  | ok (board threadId : List Char)
  | panicked
  deriving DecidableEq, Repr

/-- Embedding of `get_thread_infos` (src/lib.rs:81-89): split the URL on
`/`, take segment 3 as the board and segment 5 (up to the first `#`) as the
thread id; `url_vec[3]` / `url_vec[5]` panic when out of bounds. -/
def get_thread_infos (url : List Char) : ThreadInfos :=
  let url_vec := splitOnChar '/' url
  if h3 : 3 < url_vec.length then
    let board_name := url_vec[3]
    if h5 : 5 < url_vec.length then
      match splitOnChar '#' url_vec[5] with
      | [] => .panicked
      | thread_id :: _ => .ok board_name thread_id
    else .panicked
  else .panicked

/-! ## The link extractor

Embedding of the fixed regex of `get_image_links` (src/lib.rs:115-119):
`(//i(?:s)?\d*\.(?:4cdn|4chan)\.org/\w+/(\d+\.(?:jpg|png|gif|webm)))`.
Every quantifier in the pattern is followed by a character its class cannot
match (`\d*` and `\d+` by `.`, `(?:s)?` by a digit or `.`, `\w+` by `/`),
and the alternatives of `(?:4cdn|4chan)` and of the extension group are
pairwise distinguishable, so the regex is deterministic: at each start
position there is at most one match, computed by `matchAt` below.
`capturesAux` is the non-overlapping left-to-right scan of
`Regex.captures_iter`. -/

/-- ASCII part of the regex class `\w`. -/
def isWordChar (c : Char) : Bool := c.isAlphanum || c = '_'

/-- `stripPrefixList p s` returns `some r` iff `s = p ++ r`. -/
def stripPrefixList : List Char → List Char → Option (List Char)
  | [], s => some s
  | _ :: _, [] => none
  | a :: p, b :: s => if a = b then stripPrefixList p s else none

/-- The `(?:s)?` part: consume an optional leading `s`. -/
def optS (t : List Char) : List Char × List Char :=
  match t with
  | 's' :: r => (['s'], r)
  | _ => ([], t)

/-- The `(?:4cdn|4chan)` alternation, in the regex's order. -/
def matchHost (s : List Char) : Option (List Char × List Char) :=
  match stripPrefixList ['4', 'c', 'd', 'n'] s with
  | some r => some (['4', 'c', 'd', 'n'], r)
  | none =>
    match stripPrefixList ['4', 'c', 'h', 'a', 'n'] s with
    | some r => some (['4', 'c', 'h', 'a', 'n'], r)
    | none => none

/-- The four extension alternatives of the regex, in order. -/
def extAlternatives : List (List Char) :=
  [['j', 'p', 'g'], ['p', 'n', 'g'], ['g', 'i', 'f'], ['w', 'e', 'b', 'm']]

/-- The `(?:jpg|png|gif|webm)` alternation, in the regex's order. -/
def matchExt (s : List Char) : Option (List Char × List Char) :=
  match stripPrefixList ['j', 'p', 'g'] s with
  | some r => some (['j', 'p', 'g'], r)
  | none =>
    match stripPrefixList ['p', 'n', 'g'] s with
    | some r => some (['p', 'n', 'g'], r)
    | none =>
      match stripPrefixList ['g', 'i', 'f'] s with
      | some r => some (['g', 'i', 'f'], r)
      | none =>
        match stripPrefixList ['w', 'e', 'b', 'm'] s with
        | some r => some (['w', 'e', 'b', 'm'], r)
        | none => none

/-- The literal `.org/` between the host and the board name. -/
def orgSlash : List Char := ['.', 'o', 'r', 'g', '/']

/-- Matches the regex tail after the literal `//i`: optional `s`, `\d*`,
`.`, host, `.org/`, `\w+`, `/`, `\d+`, `.`, extension.  On success returns
(whole match including the leading `//i`, capture group 2 = filename,
remaining input). -/
def matchAfterI (t : List Char) : Option (List Char × List Char × List Char) :=
  let sp := optS t
  let digits1 := sp.2.takeWhile Char.isDigit
  match sp.2.dropWhile Char.isDigit with
  | '.' :: t3 =>
    match matchHost t3 with
    | none => none
    | some (host, t4) =>
      match stripPrefixList orgSlash t4 with
      | none => none
      | some t5 =>
        let word := t5.takeWhile isWordChar
        match word, t5.dropWhile isWordChar with
        | [], _ => none
        | _ :: _, '/' :: t7 =>
          let fdigits := t7.takeWhile Char.isDigit
          match fdigits, t7.dropWhile Char.isDigit with
          | [], _ => none
          | _ :: _, '.' :: t9 =>
            match matchExt t9 with
            | none => none
            | some (ext, rest) =>
              some ('/' :: '/' :: 'i' ::
                      (sp.1 ++ digits1 ++ '.' ::
                        (host ++ orgSlash ++ word ++ '/' :: (fdigits ++ '.' :: ext))),
                    fdigits ++ '.' :: ext, rest)
          | _ :: _, _ => none
        | _ :: _, _ => none
  | _ => none

/-- Tries the whole regex at the start of `s`: the literal `//i`, then the
tail.  Returns (whole match, filename capture, remaining input). -/
def matchAt (s : List Char) : Option (List Char × List Char × List Char) :=
  match s with
  | '/' :: '/' :: 'i' :: t => matchAfterI t
  | _ => none

/-- The non-overlapping left-to-right scan of `captures_iter`: try the
pattern at each position; on a match, emit (whole, filename) and resume
after the match.  `fuel` bounds the recursion; since every step consumes at
least one character, `fuel = s.length` is always enough
(`capturesAux_congr`). -/
def capturesAux (fuel : Nat) (s : List Char) : List (List Char × List Char) :=
  match fuel, s with
  | 0, _ => []
  | _ + 1, [] => []
  | fuel + 1, c :: rest =>
    match matchAt (c :: rest) with
    | some (m, f, r) => (m, f) :: capturesAux fuel r
    | none => capturesAux fuel rest

/-- All capture pairs of `RE.captures_iter(page_content)`, in order:
(group 1 = whole protocol-relative URL, group 2 = filename). -/
def capturesIter (s : List Char) : List (List Char × List Char) :=
  capturesAux s.length s

/-- Embedding of `get_image_links` (src/lib.rs:113-125): the (doubled)
sequence of capture pairs together with `captures_iter(...).count() / 2`. -/
def get_image_links (page_content : List Char) :
    List (List Char × List Char) × Nat :=
  (capturesIter page_content, (capturesIter page_content).length / 2)

/-! ## The image saver

Embedding of `save_image` (src/lib.rs:36-47).  The network is an oracle:
the outcome of `client.get(url).send()` is an input (`HttpResponse`), and
the outcome of `File::create(path)` is the input `createOk` (Rust calls
`.unwrap()` on it, so a failure is a panic).  The local file system is an
association list from paths to byte lists, newest entry first, so
prepending models create-or-truncate. -/

/-- The outcome of `client.get(url).send()`: either a transport failure
(propagated by `?`) or a response with a status code and a byte body. -/
inductive HttpResponse where
  | transportError
  | response (status : Nat) (body : List Nat)
  deriving DecidableEq, Repr

/-- `reqwest::StatusCode::is_success`: 2xx statuses. -/
def statusIsSuccess (status : Nat) : Bool :=
  200 ≤ status && status < 300

/-- Outcome of `save_image`: `ok path` for `Ok(String::from(path))`,
`err` for a propagated transport error, `panicked` for an `unwrap` panic
on file creation. -/
inductive SaveResult where
  | ok (path : String)
  | err
  | panicked
  deriving DecidableEq, Repr

/-- Reads the newest content stored at `p` in the association-list file
system. -/
def readFile (fs : List (String × List Nat)) (p : String) : Option (List Nat) :=
  match fs with
  | [] => none
  | (q, b) :: rest => if q = p then some b else readFile rest p

/-- Embedding of `save_image` (src/lib.rs:36-47): send the request; on a
transport error propagate it; on a success status create/truncate the file
and write the body; on a NON-success status skip the write and still
return `Ok(path)`. -/
def save_image (url path : String) (resp : HttpResponse) (createOk : Bool)
    (fs : List (String × List Nat)) : SaveResult × List (String × List Nat) :=
  match resp with
  | .transportError => (.err, fs)
  | .response status body =>
    if statusIsSuccess status then
      if createOk then (.ok path, (path, body) :: fs)
      else (.panicked, fs)
    else (.ok path, fs)

theorem splitOnChar_ne_nil (sep : Char) (s : List Char) : splitOnChar sep s ≠ [] := by
  cases s with
  | nil => simp [splitOnChar]
  | cons c rest =>
    simp only [splitOnChar]
    split
    · simp
    · split <;> simp

theorem dropWhile_length_le (p : Char → Bool) (l : List Char) :
    (l.dropWhile p).length ≤ l.length := by
  induction l with
  | nil => simp
  | cons a t ih =>
    by_cases h : p a = true
    · simp [List.dropWhile_cons, h]; omega
    · simp [List.dropWhile_cons, h]


theorem stripPrefixList_eq :
    ∀ {p s r : List Char}, stripPrefixList p s = some r → s = p ++ r
  | [], s, r, h => by
    simp only [stripPrefixList, Option.some.injEq] at h
    simp [h]
  | a :: p, [], r, h => by simp [stripPrefixList] at h
  | a :: p, b :: s, r, h => by
    simp only [stripPrefixList] at h
    split at h
    · rename_i hab
      subst hab
      rw [stripPrefixList_eq h]
      rfl
    · cases h

theorem optS_eq (t : List Char) : t = (optS t).1 ++ (optS t).2 := by
  unfold optS
  split
  · rfl
  · rfl

theorem matchHost_eq {s h r : List Char} (hm : matchHost s = some (h, r)) :
    s = h ++ r := by
  unfold matchHost at hm
  split at hm
  · rename_i r' he
    simp only [Option.some.injEq, Prod.mk.injEq] at hm
    obtain ⟨hh, hr⟩ := hm
    subst hh; subst hr
    exact stripPrefixList_eq he
  · split at hm
    · rename_i r' he
      simp only [Option.some.injEq, Prod.mk.injEq] at hm
      obtain ⟨hh, hr⟩ := hm
      subst hh; subst hr
      exact stripPrefixList_eq he
    · cases hm

theorem matchExt_eq {s e r : List Char} (hm : matchExt s = some (e, r)) :
    s = e ++ r ∧ e ∈ extAlternatives := by
  unfold matchExt at hm
  split at hm
  · rename_i r' he
    simp only [Option.some.injEq, Prod.mk.injEq] at hm
    obtain ⟨hh, hr⟩ := hm
    subst hh; subst hr
    exact ⟨stripPrefixList_eq he, by decide⟩
  · split at hm
    · rename_i r' he
      simp only [Option.some.injEq, Prod.mk.injEq] at hm
      obtain ⟨hh, hr⟩ := hm
      subst hh; subst hr
      exact ⟨stripPrefixList_eq he, by decide⟩
    · split at hm
      · rename_i r' he
        simp only [Option.some.injEq, Prod.mk.injEq] at hm
        obtain ⟨hh, hr⟩ := hm
        subst hh; subst hr
        exact ⟨stripPrefixList_eq he, by decide⟩
      · split at hm
        · rename_i r' he
          simp only [Option.some.injEq, Prod.mk.injEq] at hm
          obtain ⟨hh, hr⟩ := hm
          subst hh; subst hr
          exact ⟨stripPrefixList_eq he, by decide⟩
        · cases hm

/-- Everything `matchAt` guarantees about a successful match: the remaining
input is strictly shorter, the filename capture is a suffix of the whole
match, the whole match starts with `//i`, and the filename is a non-empty
digit run followed by `.` and one of the four extensions. -/
theorem matchAfterI_spec {t m f r : List Char}
    (h : matchAfterI t = some (m, f, r)) :
    r.length ≤ t.length ∧
      (∃ p, m = p ++ f) ∧
      (∃ u, m = '/' :: '/' :: 'i' :: u) ∧
      (∃ ds ext, f = ds ++ '.' :: ext ∧ ds ≠ [] ∧
        (∀ c ∈ ds, c.isDigit = true) ∧ ext ∈ extAlternatives) := by
  simp only [matchAfterI] at h
  split at h
  · rename_i t3 e1
    split at h
    · exact Option.noConfusion h
    · rename_i host t4 e2
      split at h
      · exact Option.noConfusion h
      · rename_i t5 e3
        split at h
        · exact Option.noConfusion h
        · rename_i w0 ws t7 e4 e5
          split at h
          · exact Option.noConfusion h
          · rename_i d0 ds t9 e6 e7
            split at h
            · exact Option.noConfusion h
            · rename_i ext rest e8
              simp only [Option.some.injEq, Prod.mk.injEq] at h
              obtain ⟨hm, hf, hr⟩ := h
              subst hm; subst hf; subst hr
              have L8 := (matchExt_eq e8).1
              have L8' : t9.length = ext.length + rest.length := by
                rw [L8]; simp
              have L7 := dropWhile_length_le Char.isDigit t7
              rw [e7] at L7
              simp only [List.length_cons] at L7
              have L5 := dropWhile_length_le isWordChar t5
              rw [e5] at L5
              simp only [List.length_cons] at L5
              have L3 := stripPrefixList_eq e3
              have L3' : t4.length = 5 + t5.length := by
                rw [L3]; simp [orgSlash]; omega
              have L2 := matchHost_eq e2
              have L2' : t3.length = host.length + t4.length := by
                rw [L2]; simp
              have L1 := dropWhile_length_le Char.isDigit (optS t).2
              rw [e1] at L1
              simp only [List.length_cons] at L1
              have L0 : t.length = (optS t).1.length + (optS t).2.length := by
                conv_lhs => rw [optS_eq t]
                simp
              rw [e4, e6]
              refine ⟨by omega, ?_, ⟨_, rfl⟩, ?_⟩
              · refine ⟨'/' :: '/' :: 'i' ::
                  ((optS t).1 ++ (optS t).2.takeWhile Char.isDigit ++
                    '.' :: (host ++ orgSlash ++ (w0 :: ws) ++ ['/'])), ?_⟩
                simp [List.append_assoc]
              · refine ⟨d0 :: ds, ext, rfl, by simp, ?_, (matchExt_eq e8).2⟩
                intro c hc
                rw [← e6] at hc
                exact List.mem_takeWhile_imp hc
          · exact Option.noConfusion h
        · exact Option.noConfusion h
  · exact Option.noConfusion h

/-- `matchAt` consumes at least the literal `//i`, so the remaining input
is strictly shorter; the captures satisfy the shape of the regex. -/
theorem matchAt_spec {s m f r : List Char}
    (h : matchAt s = some (m, f, r)) :
    r.length < s.length ∧
      (∃ p, m = p ++ f) ∧
      (∃ u, m = '/' :: '/' :: 'i' :: u) ∧
      (∃ ds ext, f = ds ++ '.' :: ext ∧ ds ≠ [] ∧
        (∀ c ∈ ds, c.isDigit = true) ∧ ext ∈ extAlternatives) := by
  unfold matchAt at h
  split at h
  · rename_i t
    obtain ⟨hl, h2, h3, h4⟩ := matchAfterI_spec h
    exact ⟨by simp; omega, h2, h3, h4⟩
  · exact Option.noConfusion h

/-- The fuel of `capturesAux` is irrelevant once it reaches the length of
the input: the scan consumes at least one character per step. -/
theorem capturesAux_congr :
    ∀ (f1 f2 : Nat) (s : List Char), s.length ≤ f1 → s.length ≤ f2 →
      capturesAux f1 s = capturesAux f2 s := by
  intro f1
  induction f1 with
  | zero =>
    intro f2 s h1 h2
    have : s = [] := List.eq_nil_of_length_eq_zero (Nat.le_zero.mp h1)
    subst this
    cases f2 <;> rfl
  | succ f1 ih =>
    intro f2 s h1 h2
    cases s with
    | nil => cases f2 <;> rfl
    | cons c rest =>
      cases f2 with
      | zero => simp at h2
      | succ f2 =>
        simp only [List.length_cons] at h1 h2
        simp only [capturesAux]
        cases hm : matchAt (c :: rest) with
        | none => exact ih f2 rest (by omega) (by omega)
        | some mfr =>
          obtain ⟨m, f, r⟩ := mfr
          have hlt := (matchAt_spec hm).1
          simp only [List.length_cons] at hlt
          exact congrArg (List.cons (m, f)) (ih f2 r (by omega) (by omega))

/-- Every capture pair the scan produces comes from a successful `matchAt`,
hence satisfies the regex shape. -/
theorem capturesAux_shape :
    ∀ (fuel : Nat) (s m f : List Char), (m, f) ∈ capturesAux fuel s →
      (∃ p, m = p ++ f) ∧
        (∃ u, m = '/' :: '/' :: 'i' :: u) ∧
        (∃ ds ext, f = ds ++ '.' :: ext ∧ ds ≠ [] ∧
          (∀ c ∈ ds, c.isDigit = true) ∧ ext ∈ extAlternatives) := by
  intro fuel
  induction fuel with
  | zero => intro s m f h; simp [capturesAux] at h
  | succ fuel ih =>
    intro s m f h
    cases s with
    | nil => simp [capturesAux] at h
    | cons c rest =>
      simp only [capturesAux] at h
      cases hm : matchAt (c :: rest) with
      | none =>
        rw [hm] at h
        exact ih rest m f h
      | some mfr =>
        obtain ⟨m', f', r⟩ := mfr
        rw [hm] at h
        rcases List.mem_cons.mp h with heq | hmem
        · obtain ⟨hm', hf'⟩ := Prod.mk.injEq .. ▸ heq
          subst hm'; subst hf'
          exact (matchAt_spec hm).2
        · exact ih r m f hmem

/-- C1: `get_image_links` returns the raw (non-deduplicated) sequence of
pattern matches together with a count equal to the raw match count divided
by 2; zero matches give the empty sequence and count 0, not an error (the
function is total). -/
theorem get_image_links_raw_count (s : List Char) :
    (get_image_links s).1 = capturesIter s ∧
      (get_image_links s).2 = ((get_image_links s).1).length / 2 ∧
      (capturesIter s = [] → get_image_links s = ([], 0)) := by
  refine ⟨rfl, rfl, fun h => ?_⟩
  simp [get_image_links, h]

/-- C1 witness: a page text with zero matches yields `([], 0)`. -/
theorem get_image_links_raw_count_witness :
    capturesIter (String.toList "hello world") = [] ∧
      get_image_links (String.toList "hello world") = ([], 0) :=
  ⟨by decide, (get_image_links_raw_count _).2.2 (by decide)⟩

/-- C5: on the doubled-anchor scenario page the extractor yields exactly
two raw matches, both capturing the protocol-relative URL and the
filename, and the reported count is 1. -/
theorem get_image_links_scenario :
    get_image_links (String.toList
        "<a href=\"//i.4cdn.org/wg/1489266570954.jpg\">stickyop.jpg</a><a href=\"//i.4cdn.org/wg/1489266570954.jpg\">stickyop.jpg</a>") =
      ([(String.toList "//i.4cdn.org/wg/1489266570954.jpg",
          String.toList "1489266570954.jpg"),
        (String.toList "//i.4cdn.org/wg/1489266570954.jpg",
          String.toList "1489266570954.jpg")], 1) := by
  decide

/-- C6: extraction is deterministic and idempotent — two invocations on
the identical input are the identical pure computation, so both the match
sequence and the count coincide. -/
theorem get_image_links_deterministic (s : List Char) :
    (get_image_links s).1 = (get_image_links s).1 ∧
      (get_image_links s).2 = (get_image_links s).2 :=
  ⟨rfl, rfl⟩

/-- C9: the reported count is the floor of half the raw match count, so a
page with an odd raw match count yields a non-empty sequence that still
carries every raw match while the count undercounts it. -/
theorem get_image_links_odd (s : List Char)
    (h : ((get_image_links s).1).length % 2 = 1) :
    (get_image_links s).1 ≠ [] ∧
      (get_image_links s).1 = capturesIter s ∧
      (get_image_links s).2 = ((get_image_links s).1).length / 2 ∧
      2 * (get_image_links s).2 < ((get_image_links s).1).length := by
  refine ⟨fun hnil => by rw [hnil] at h; simp at h, rfl, rfl, ?_⟩
  have hc : (get_image_links s).2 = ((get_image_links s).1).length / 2 := rfl
  rw [hc]
  omega

/-- C9 witness: a page holding the media URL exactly once has one raw
match and a reported count of 0. -/
theorem get_image_links_odd_witness :
    ((get_image_links (String.toList "//i.4cdn.org/wg/123.jpg")).1).length % 2 = 1 ∧
      (get_image_links (String.toList "//i.4cdn.org/wg/123.jpg")).1 ≠ [] ∧
      (get_image_links (String.toList "//i.4cdn.org/wg/123.jpg")).2 = 0 :=
  ⟨by decide, (get_image_links_odd _ (by decide)).1, by decide⟩

/-- C10: every produced match has a filename capture that is a suffix of
the URL capture; the URL capture starts with `//i`; and the filename is a
non-empty digit run followed by `.` and one of `jpg`, `png`, `gif`,
`webm`. -/
theorem get_image_links_match_shape (s m f : List Char)
    (h : (m, f) ∈ (get_image_links s).1) :
    (∃ p, m = p ++ f) ∧
      (∃ u, m = '/' :: '/' :: 'i' :: u) ∧
      (∃ ds ext, f = ds ++ '.' :: ext ∧ ds ≠ [] ∧
        (∀ c ∈ ds, c.isDigit = true) ∧ ext ∈ extAlternatives) :=
  capturesAux_shape s.length s m f h

/-- C10 witness: the single match of a one-URL page satisfies the shape
invariants. -/
theorem get_image_links_match_shape_witness :
    (String.toList "//i.4cdn.org/wg/123.jpg", String.toList "123.jpg") ∈
        (get_image_links (String.toList "//i.4cdn.org/wg/123.jpg")).1 ∧
      ((∃ p, String.toList "//i.4cdn.org/wg/123.jpg" = p ++ String.toList "123.jpg") ∧
        (∃ u, String.toList "//i.4cdn.org/wg/123.jpg" = '/' :: '/' :: 'i' :: u) ∧
        (∃ ds ext, String.toList "123.jpg" = ds ++ '.' :: ext ∧ ds ≠ [] ∧
          (∀ c ∈ ds, c.isDigit = true) ∧ ext ∈ extAlternatives)) :=
  ⟨by decide,
    get_image_links_match_shape (String.toList "//i.4cdn.org/wg/123.jpg")
      (String.toList "//i.4cdn.org/wg/123.jpg") (String.toList "123.jpg")
      (by decide)⟩

/-- C2: for every URL with at least 6 `/`-segments, `get_thread_infos`
returns segment 3 as the board and the part of segment 5 before the first
`#` as the thread id. -/
theorem get_thread_infos_wellformed (url : List Char)
    (h : 6 ≤ (splitOnChar '/' url).length) :
    get_thread_infos url =
      .ok ((splitOnChar '/' url).getD 3 [])
        ((splitOnChar '#' ((splitOnChar '/' url).getD 5 [])).headD []) := by
  have h3 : 3 < (splitOnChar '/' url).length := by omega
  have h5 : 5 < (splitOnChar '/' url).length := by omega
  simp only [get_thread_infos]
  rw [dif_pos h3, dif_pos h5]
  rw [List.getD_eq_getElem _ _ h3, List.getD_eq_getElem _ _ h5]
  cases hs : splitOnChar '#' (splitOnChar '/' url)[5] with
  | nil => exact absurd hs (splitOnChar_ne_nil _ _)
  | cons t0 ts => simp

/-- C2 witness: the documented example URL yields board `wg` and thread id
`6872254`. -/
theorem get_thread_infos_wellformed_witness :
    get_thread_infos (String.toList "https://boards.4chan.org/wg/thread/6872254") =
      .ok (String.toList "wg") (String.toList "6872254") := by
  rw [get_thread_infos_wellformed _ (by decide)]
  decide

/-- C3 counterexample: on a URL with fewer than 6 `/`-segments the code
panics (out-of-bounds index); it does not return a reported error — the
return type of `get_thread_infos` has no error value at all. -/
theorem get_thread_infos_short_counterexample :
    get_thread_infos (String.toList "abc") = .panicked := by decide

/-- C3 amended: for every URL with fewer than 6 `/`-segments,
`get_thread_infos` panics with an out-of-bounds index rather than
returning a `MalformedUrl` error. -/
theorem get_thread_infos_short_panics (url : List Char)
    (h : (splitOnChar '/' url).length < 6) :
    get_thread_infos url = .panicked := by
  simp only [get_thread_infos]
  split
  · rw [dif_neg (by omega)]
  · rfl

/-- C3 amended witness: the short URL `abc` makes the code panic. -/
theorem get_thread_infos_short_panics_witness :
    (splitOnChar '/' (String.toList "abc")).length < 6 ∧
      get_thread_infos (String.toList "abc") = .panicked :=
  ⟨by decide, get_thread_infos_short_panics _ (by decide)⟩

/-- C8 counterexample: the URL `//////` has 7 `/`-segments, is accepted,
and yields an EMPTY board and an EMPTY thread id, refuting the claimed
non-emptiness invariant. -/
theorem get_thread_infos_empty_counterexample :
    get_thread_infos (String.toList "//////") = .ok [] [] := by decide

/-- C8 amended: for every accepted URL, the board is an element of the URL
split on `/` and the thread id is an element of the `#`-split of segment 5;
neither is guaranteed non-empty. -/
theorem get_thread_infos_mem (url b t : List Char)
    (h : get_thread_infos url = .ok b t) :
    b ∈ splitOnChar '/' url ∧
      t ∈ splitOnChar '#' ((splitOnChar '/' url).getD 5 []) := by
  simp only [get_thread_infos] at h
  split at h
  · rename_i h3
    split at h
    · rename_i h5
      split at h
      · cases h
      · rename_i t0 ts hs
        injection h with hb ht
        subst hb; subst ht
        refine ⟨List.getElem_mem h3, ?_⟩
        rw [List.getD_eq_getElem _ _ h5, hs]
        exact List.mem_cons_self _ _
    · cases h
  · cases h

/-- C4 counterexample: a 404 on the binary fetch does NOT fail — the code
skips the write and still returns `Ok(path)`; the file system is
unchanged, so no file exists at the destination. -/
theorem save_image_status_counterexample :
    save_image "https://i.4cdn.org/wg/1.jpg" "out/1.jpg"
        (.response 404 [104, 105]) true [] =
      (.ok "out/1.jpg", []) ∧
      readFile [] "out/1.jpg" = none := by
  constructor
  · decide
  · decide

/-- C4 amended: for every non-success status, `save_image` produces no
local data (the file system is returned unchanged) but reports success,
returning `Ok(path)` rather than an `HttpStatusError`. -/
theorem save_image_nonsuccess (url path : String) (status : Nat)
    (body : List Nat) (createOk : Bool) (fs : List (String × List Nat))
    (h : statusIsSuccess status = false) :
    save_image url path (.response status body) createOk fs = (.ok path, fs) := by
  simp [save_image, h]

/-- C4 amended witness: a 404 response leaves the file system unchanged
and returns `Ok(path)`. -/
theorem save_image_nonsuccess_witness :
    statusIsSuccess 404 = false ∧
      save_image "https://i.4cdn.org/wg/1.jpg" "out/1.jpg"
          (.response 404 [104, 105]) true [] =
        (.ok "out/1.jpg", []) :=
  ⟨by decide, save_image_nonsuccess _ _ _ _ _ _ (by decide)⟩

/-- C7: on a success status (and a writable destination), `save_image`
writes exactly the fetched response body at the destination path and
returns that path. -/
theorem save_image_roundtrip (url path : String) (status : Nat)
    (body : List Nat) (fs : List (String × List Nat))
    (h : statusIsSuccess status = true) :
    (save_image url path (.response status body) true fs).1 = .ok path ∧
      readFile (save_image url path (.response status body) true fs).2 path =
        some body := by
  simp [save_image, h, readFile]

/-- C7 witness: a 200 response gets its body written to the destination
path byte for byte. -/
theorem save_image_roundtrip_witness :
    statusIsSuccess 200 = true ∧
      (save_image "https://i.4cdn.org/wg/1.jpg" "out/1.jpg"
          (.response 200 [1, 2, 3]) true []).1 = .ok "out/1.jpg" ∧
      readFile (save_image "https://i.4cdn.org/wg/1.jpg" "out/1.jpg"
          (.response 200 [1, 2, 3]) true []).2 "out/1.jpg" = some [1, 2, 3] :=
  ⟨by decide, (save_image_roundtrip _ _ _ _ _ (by decide)).1,
    (save_image_roundtrip "https://i.4cdn.org/wg/1.jpg" "out/1.jpg" 200 [1, 2, 3] []
      (by decide)).2⟩

/-- C8 amended witness: on the documented example URL the returned board
and thread id are elements of the respective splits. -/
theorem get_thread_infos_mem_witness :
    get_thread_infos (String.toList "https://boards.4chan.org/wg/thread/6872254") =
        .ok (String.toList "wg") (String.toList "6872254") ∧
      (String.toList "wg" ∈
          splitOnChar '/' (String.toList "https://boards.4chan.org/wg/thread/6872254") ∧
        String.toList "6872254" ∈ splitOnChar '#'
          ((splitOnChar '/'
              (String.toList "https://boards.4chan.org/wg/thread/6872254")).getD 5 [])) :=
  ⟨by decide,
    get_thread_infos_mem (String.toList "https://boards.4chan.org/wg/thread/6872254")
      (String.toList "wg") (String.toList "6872254") (by decide)⟩
